import Mathlib

/-!
Verification of the Genomic Coordinate Mapping Engine of `probabilistic2020`
(`permutation2020/python/bed_line.py`): BED-record parsing, UTR filtering of
exon intervals, and the `query_position` coordinate resolver.

The Python source is shallowly embedded: machine integers become `Int`
(Python integers are unbounded), the namedtuple `BedTuple` becomes a
structure of strings, fallible construction becomes `Option`, and the
mutable-`pos` scan loop of `query_position` becomes a structurally
recursive function threading `pos : Option Int`.
-/

namespace Bed

/-- Per-exon lengths, mirroring `self.exon_lens = [e[1] - e[0] for e in self.exons]`. -/
def exon_lens (exons : List (Int × Int)) : List Int :=
  exons.map (fun e => e.2 - e.1)

/-- Total coding length, mirroring `self.cds_len = sum(self.exon_lens)`. -/
def cds_len (exons : List (Int × Int)) : Int :=
  (exon_lens exons).sum

/-- Mirrors `self.five_ss_len = 2*(self.num_exons-1)` (Python int arithmetic,
so the subtraction is over `Int`). -/
def five_ss_len (exons : List (Int × Int)) : Int :=
  2 * ((exons.length : Int) - 1)

/-- The candidate position computed by the two splice-site `elif` branches of
`query_position` for exon index `i` (consulted only when the coding-interior
test of that iteration failed).  Returns `none` when neither window matches or
when the strand is neither `"+"` nor `"-"` (in Python, `pos` is then left
unchanged). -/
def spliceCandidate (strand : String) (cd fs nE : Int) (i : Nat) (coord : Int)
    (ex : Int × Int) : Option Int :=
  if ex.2 ≤ coord ∧ coord < ex.2 + 2 ∧ (i : Int) ≠ nE - 1 then
    if strand = "+" then some (cd + 2 * (i : Int) + (coord - ex.2))
    else if strand = "-" then
      some (cd + fs + 2 * (nE - ((i : Int) + 2)) + (coord - ex.2))
    else none
  else if ex.1 - 2 ≤ coord ∧ coord < ex.1 ∧ i ≠ 0 then
    if strand = "-" then
      some (cd + 2 * (nE - ((i : Int) + 2)) + (coord - (ex.1 - 2)))
    else if strand = "+" then
      some (cd + fs + 2 * ((i : Int) - 1) + (coord - (ex.1 - 2)))
    else none
  else none

/-- The `for i, (estart, eend) in enumerate(self.exons)` loop of
`query_position`: an interior hit returns `sum(self.exon_lens[:i]) +
(genome_coord - estart)` immediately; otherwise the splice branches may
overwrite `pos` and the scan continues; at the end the accumulated `pos`
is returned. -/
def queryScan (strand : String) (cd fs nE : Int) (coord : Int) (lens : List Int) :
    Nat → List (Int × Int) → Option Int → Option Int
  | _, [], pos => pos
  | i, ex :: rest, pos =>
    if ex.1 ≤ coord ∧ coord < ex.2 then
      some ((lens.take i).sum + (coord - ex.1))
    else
      queryScan strand cd fs nE coord lens (i + 1) rest
        (match spliceCandidate strand cd fs nE i coord ex with
         | some c => some c
         | none => pos)

/-- A gene as seen by `query_position`: its chromosome string and its list of
coding (UTR-filtered) exons, from which `exon_lens`, `num_exons`, `cds_len`
and `five_ss_len` are derived. -/
structure BedGene where
  chrom : String
  exons : List (Int × Int)
deriving DecidableEq

/-- `BedLine.query_position(self, strand, chr, genome_coord)`. -/
def query_position (g : BedGene) (strand chr : String) (coord : Int) : Option Int :=
  if chr ≠ g.chrom then none
  else
    queryScan strand (cds_len g.exons) (five_ss_len g.exons)
      (g.exons.length : Int) coord (exon_lens g.exons) 0 g.exons none

/-- The per-exon classification of `_filter_utr`'s loop body: `none` when the
exon is dropped, `some interval` when a (possibly clipped) interval is
appended. -/
def classifyExon (coding_start coding_end : Int) (exon : Int × Int) :
    Option (Int × Int) :=
  if exon.1 > coding_end ∧ exon.2 > coding_end then none
  else if exon.1 < coding_start ∧ exon.2 < coding_start then none
  else if exon.1 ≤ coding_start ∧ exon.2 ≥ coding_end then
    some (coding_start, coding_end)
  else if exon.1 ≤ coding_start ∧ exon.2 < coding_end then
    some (coding_start, exon.2)
  else if exon.1 > coding_start ∧ exon.2 ≥ coding_end then
    some (exon.1, coding_end)
  else if exon.1 > coding_start ∧ exon.2 < coding_end then some exon
  else none

/-- `BedLine._filter_utr`: empty result for a coding region shorter than one
codon, otherwise the per-exon classification applied in order. -/
def filter_utr (coding_start coding_end : Int) (ex : List (Int × Int)) :
    List (Int × Int) :=
  if coding_end - coding_start < 3 then []
  else ex.filterMap (classifyExon coding_start coding_end)

/-- The sequence of splice candidates a scan starting at exon index `i`
computes, in scan order, on a stretch of exons none of whose interiors
contain the coordinate. -/
def candList (strand : String) (cd fs nE coord : Int) :
    Nat → List (Int × Int) → List Int
  | _, [] => []
  | i, ex :: rest =>
    match spliceCandidate strand cd fs nE i coord ex with
    | some c => c :: candList strand cd fs nE coord (i + 1) rest
    | none => candList strand cd fs nE coord (i + 1) rest

/-- Value of a digit string, most significant digit first. -/
def digitsVal (cs : List Char) : Int :=
  cs.foldl (fun a c => 10 * a + ((c.toNat : Int) - 48)) 0

/-- Remove the characters satisfying `p` from both ends (Python `strip`). -/
def stripEnds (p : Char → Bool) (cs : List Char) : List Char :=
  ((cs.dropWhile p).reverse.dropWhile p).reverse

/-- Model of Python `int(s)` on a string: optional surrounding whitespace,
an optional sign, then one or more decimal digits; anything else raises
`ValueError`, modelled as `none`. -/
def pyInt? (s : String) : Option Int :=
  match stripEnds Char.isWhitespace s.toList with
  | '+' :: rest =>
    if rest ≠ [] ∧ rest.all Char.isDigit then some (digitsVal rest) else none
  | '-' :: rest =>
    if rest ≠ [] ∧ rest.all Char.isDigit then some (-(digitsVal rest)) else none
  | cs =>
    if cs ≠ [] ∧ cs.all Char.isDigit then some (digitsVal cs) else none

/-- Python `s.split(sep)` for a one-character separator: splitting the empty
string gives `[""]`, and adjacent separators give empty pieces. -/
def splitOnChar (sep : Char) : List Char → List (List Char)
  | [] => [[]]
  | c :: cs =>
    if c = sep then [] :: splitOnChar sep cs
    else
      match splitOnChar sep cs with
      | [] => [[c]]
      | w :: ws => (c :: w) :: ws

/-- `s.strip(',').split(',')` as used on `blockSizes` and `blockStarts`. -/
def splitCommaField (s : String) : List String :=
  (splitOnChar ',' (stripEnds (fun c => c = ',') s.toList)).map
    (fun cs => String.mk cs)

/-- `line.split('\t')` of the constructor's string branch. -/
def splitTabField (s : String) : List String :=
  (splitOnChar '\x09' s.toList).map (fun cs => String.mk cs)

/-- Convert every entry with `int()`, failing if any entry fails
(the list comprehension / eager `map(int, ...)` of `_init_exons`). -/
def intList? : List String → Option (List Int)
  | [] => some []
  | t :: ts =>
    match pyInt? t, intList? ts with
    | some v, some vs => some (v :: vs)
    | _, _ => none

/-- The namedtuple `BedTuple` over `BED_HEADER`: twelve string fields. -/
structure BedTuple where
  chrom : String
  chromStart : String
  chromEnd : String
  name : String
  score : String
  strand : String
  thickStart : String
  thickEnd : String
  itemRgb : String
  blockCount : String
  blockSizes : String
  blockStarts : String
deriving DecidableEq

/-- `dict(zip(BedTuple._fields, line))` followed by `BedTuple(**tmp)`:
`zip` truncates to the first 12 fields, so extra fields are ignored, while
fewer than 12 fields leaves required arguments missing (`TypeError`),
modelled as `none`. -/
def mkBedTuple (line : List String) : Option BedTuple :=
  if line.length < 12 then none
  else some ⟨line.getD 0 "", line.getD 1 "", line.getD 2 "", line.getD 3 "",
    line.getD 4 "", line.getD 5 "", line.getD 6 "", line.getD 7 "",
    line.getD 8 "", line.getD 9 "", line.getD 10 "", line.getD 11 ""⟩

/-- The raw chromosome-interval exons of `_init_exons`:
`exon_starts[i] = chrom_start + blockStarts[i]`, end adds `blockSizes[i]`.
Fails when `int()` fails on `chromStart` or any list entry, or when
`blockStarts` has more entries than `blockSizes` (Python raises
`IndexError` at `exon_sizes[i]`); under that guard the `zipWith` equals
the comprehension over `range(len(exon_starts))`. -/
def rawExons (t : BedTuple) : Option (List (Int × Int)) :=
  match pyInt? t.chromStart with
  | none => none
  | some chromStart =>
    match intList? (splitCommaField t.blockStarts),
          intList? (splitCommaField t.blockSizes) with
    | some starts, some sizes =>
      if sizes.length < starts.length then none
      else some (List.zipWith
        (fun st sz => (chromStart + st, chromStart + st + sz)) starts sizes)
    | _, _ => none

/-- The coding exons stored in `self.exons`: the raw exons passed through
`_filter_utr`, which first converts `thickStart`/`thickEnd` with `int()`. -/
def codingExons (t : BedTuple) : Option (List (Int × Int)) :=
  match rawExons t, pyInt? t.thickStart, pyInt? t.thickEnd with
  | some ex, some cs, some ce => some (filter_utr cs ce ex)
  | _, _, _ => none

/-- A constructed `BedLine` object: the retained `bed_tuple` and the derived
coding exon list (the other attributes are functions of these). -/
structure BedLineRec where
  bed_tuple : BedTuple
  exons : List (Int × Int)
deriving DecidableEq

/-- `BedLine.__init__` on an already-split field list. -/
def mkBedLineList (line : List String) : Option BedLineRec :=
  match mkBedTuple line with
  | none => none
  | some t =>
    match codingExons t with
    | none => none
    | some ex => some ⟨t, ex⟩

/-- The dynamically-typed constructor argument: a raw line, a pre-split
field list, or any other Python value (rejected with `ValueError`). -/
inductive BedInput where
  | str (line : String)
  | fields (line : List String)
  | other

/-- `BedLine.__init__`: a string is split on tabs, a list is used as is,
anything else raises. -/
def mkBedLine : BedInput → Option BedLineRec
  | .str line => mkBedLineList (splitTabField line)
  | .fields line => mkBedLineList line
  | .other => none

/-- The success condition for record construction (used to state C5):
at least 12 fields, integer `chromStart`, `thickStart`, `thickEnd` and
`blockSizes`/`blockStarts` entries, and no more `blockStarts` entries than
`blockSizes` entries. -/
def goodBed (l : List String) : Prop :=
  12 ≤ l.length
  ∧ (pyInt? (l.getD 1 "")).isSome = true
  ∧ (∀ x ∈ splitCommaField (l.getD 11 ""), (pyInt? x).isSome = true)
  ∧ (∀ x ∈ splitCommaField (l.getD 10 ""), (pyInt? x).isSome = true)
  ∧ (splitCommaField (l.getD 11 "")).length
      ≤ (splitCommaField (l.getD 10 "")).length
  ∧ (pyInt? (l.getD 6 "")).isSome = true
  ∧ (pyInt? (l.getD 7 "")).isSome = true

end Bed

namespace Bed

/-- C4: on the two-exon, fully coding, plus-strand gene with coding exons
[100,200) and [300,400), the donor window query at 200 resolves to 200 and
the acceptor window query at 299 resolves to 203; the derived constants are
cds_len = 200, exon count 2, splice span 2. -/
theorem C4_two_exon_splice_windows (chrom : String) :
    query_position ⟨chrom, [(100, 200), (300, 400)]⟩ "+" chrom 200 = some 200
    ∧ query_position ⟨chrom, [(100, 200), (300, 400)]⟩ "+" chrom 299 = some 203
    ∧ cds_len [(100, 200), (300, 400)] = 200
    ∧ five_ss_len [(100, 200), (300, 400)] = 2 := by
  have h : ¬ (chrom ≠ chrom) := fun hc => hc rfl
  refine ⟨?_, ?_, by decide, by decide⟩ <;>
    (simp only [query_position]; rw [if_neg h]; rfl)

/-- C7: a chromosome mismatch makes `query_position` return null for every
strand and coordinate, and the result is independent of the exon list (the
chromosome check precedes the exon scan). -/
theorem C7_chrom_mismatch (chrom chr strand : String) (coord : Int)
    (exs exs' : List (Int × Int)) (h : chr ≠ chrom) :
    query_position ⟨chrom, exs⟩ strand chr coord = none
    ∧ query_position ⟨chrom, exs⟩ strand chr coord
        = query_position ⟨chrom, exs'⟩ strand chr coord := by
  constructor
  · simp [query_position, h]
  · simp [query_position, h]

theorem C7_chrom_mismatch_witness :
    query_position ⟨"chr1", [(0, 10)]⟩ "+" "chr2" 5 = none
    ∧ query_position ⟨"chr1", [(0, 10)]⟩ "+" "chr2" 5
        = query_position ⟨"chr1", []⟩ "+" "chr2" 5 :=
  C7_chrom_mismatch "chr1" "chr2" "+" 5 [(0, 10)] [] (by decide)

/-- C6: a coding region shorter than 3 bases yields an empty coding exon
list, and a gene with that exon list answers null to every query. -/
theorem C6_short_coding_region (cs ce : Int) (ex : List (Int × Int))
    (chrom strand chr : String) (coord : Int) (h : ce - cs < 3) :
    filter_utr cs ce ex = []
    ∧ query_position ⟨chrom, filter_utr cs ce ex⟩ strand chr coord = none := by
  have hempty : filter_utr cs ce ex = [] := by simp [filter_utr, h]
  refine ⟨hempty, ?_⟩
  rw [hempty]
  by_cases hc : chr = chrom
  · subst hc
    simp [query_position, queryScan]
  · simp [query_position, hc]

theorem C6_short_coding_region_witness :
    filter_utr 0 2 [(0, 50)] = []
    ∧ query_position ⟨"chr1", filter_utr 0 2 [(0, 50)]⟩ "+" "chr1" 10 = none :=
  C6_short_coding_region 0 2 [(0, 50)] "chr1" "+" "chr1" 10 (by decide)

/-- C8: single-exon gene [1000,2000): coordinates 1000 and 1999 map to 0 and
999, coordinate 2000 maps to null; in general a single-exon gene answers a
query exactly when the coordinate is in the exon interior, so it has no
splice windows at all. -/
theorem C8_single_exon (chrom strand : String) (s e coord : Int) :
    query_position ⟨chrom, [(1000, 2000)]⟩ "+" chrom 1000 = some 0
    ∧ query_position ⟨chrom, [(1000, 2000)]⟩ "+" chrom 1999 = some 999
    ∧ query_position ⟨chrom, [(1000, 2000)]⟩ "+" chrom 2000 = none
    ∧ query_position ⟨chrom, [(s, e)]⟩ strand chrom coord
        = (if s ≤ coord ∧ coord < e then some (coord - s) else none) := by
  have h : ¬ (chrom ≠ chrom) := fun hc => hc rfl
  refine ⟨?_, ?_, ?_, ?_⟩
  · simp only [query_position]; rw [if_neg h]; rfl
  · simp only [query_position]; rw [if_neg h]; rfl
  · simp only [query_position]; rw [if_neg h]; rfl
  · simp only [query_position]
    rw [if_neg h]
    by_cases hin : s ≤ coord ∧ coord < e
    · simp [queryScan, hin, exon_lens]
    · have hcand : spliceCandidate strand (cds_len [(s, e)])
          (five_ss_len [(s, e)]) 1 0 coord (s, e) = none := by
        simp only [spliceCandidate, five_ss_len]
        norm_num
      simp [queryScan, hin, hcand]

end Bed

namespace Bed

theorem queryScan_first_interior (strand : String) (cd fs nE coord : Int)
    (lens : List Int) (l₁ : List (Int × Int)) :
    ∀ (ex : Int × Int) (l₂ : List (Int × Int)) (i : Nat) (pos : Option Int),
    (∀ e ∈ l₁, ¬(e.1 ≤ coord ∧ coord < e.2)) → ex.1 ≤ coord → coord < ex.2 →
    queryScan strand cd fs nE coord lens i (l₁ ++ ex :: l₂) pos
      = some ((lens.take (i + l₁.length)).sum + (coord - ex.1)) := by
  induction l₁ with
  | nil =>
    intro ex l₂ i pos _ h1 h2
    simp only [List.nil_append, queryScan]
    rw [if_pos ⟨h1, h2⟩]
    simp
  | cons e l₁ ih =>
    intro ex l₂ i pos hno h1 h2
    have hne : ¬ (e.1 ≤ coord ∧ coord < e.2) := hno e (List.mem_cons_self e l₁)
    simp only [List.cons_append, queryScan]
    rw [if_neg hne]
    simp only [List.append_eq]
    rw [ih ex l₂ (i + 1) _ (fun x hx => hno x (List.mem_cons_of_mem e hx)) h1 h2]
    have harith : i + 1 + l₁.length = i + (e :: l₁).length := by
      simp only [List.length_cons]; omega
    rw [harith]

theorem queryScan_no_interior (strand : String) (cd fs nE coord : Int)
    (lens : List Int) (l : List (Int × Int)) :
    ∀ (i : Nat) (pos : Option Int),
    (∀ e ∈ l, ¬(e.1 ≤ coord ∧ coord < e.2)) →
    queryScan strand cd fs nE coord lens i l pos
      = (candList strand cd fs nE coord i l).foldl (fun _ c => some c) pos := by
  induction l with
  | nil => intro i pos _; rfl
  | cons e l ih =>
    intro i pos hno
    have hne : ¬ (e.1 ≤ coord ∧ coord < e.2) := hno e (List.mem_cons_self e l)
    simp only [queryScan, candList]
    rw [if_neg hne]
    cases hc : spliceCandidate strand cd fs nE i coord e with
    | none =>
      simp only [hc]
      exact ih (i + 1) pos (fun x hx => hno x (List.mem_cons_of_mem e hx))
    | some c =>
      simp only [hc, List.foldl_cons]
      exact ih (i + 1) (some c) (fun x hx => hno x (List.mem_cons_of_mem e hx))

theorem foldl_overwrite (cs : List Int) :
    ∀ (pos : Option Int),
    cs.foldl (fun _ c => some c) pos = cs.getLast?.elim pos some := by
  induction cs with
  | nil => intro pos; rfl
  | cons c cs ih =>
    intro pos
    cases cs with
    | nil => simp [List.foldl_cons, ih]
    | cons d cs =>
      rw [List.foldl_cons, ih (some c), List.getLast?_cons_cons]
      cases h : (d :: cs).getLast? with
      | none => rw [List.getLast?_eq_none_iff] at h; cases h
      | some x => rfl

theorem candList_mem (strand : String) (cd fs nE coord : Int)
    (l : List (Int × Int)) :
    ∀ (i : Nat) (c : Int), c ∈ candList strand cd fs nE coord i l →
    ∃ (j : Nat) (ex : Int × Int), i ≤ j ∧ j < i + l.length ∧
      spliceCandidate strand cd fs nE j coord ex = some c := by
  induction l with
  | nil => intro i c h; simp [candList] at h
  | cons e l ih =>
    intro i c h
    rw [candList] at h
    cases hc : spliceCandidate strand cd fs nE i coord e with
    | some c' =>
      rw [hc] at h
      rcases List.mem_cons.mp h with h | h
      · subst h
        exact ⟨i, e, le_refl i, by simp only [List.length_cons]; omega, hc⟩
      · rcases ih (i + 1) c h with ⟨j, ex, hj1, hj2, hj3⟩
        refine ⟨j, ex, by omega, ?_, hj3⟩
        simp only [List.length_cons]
        omega
    | none =>
      rw [hc] at h
      rcases ih (i + 1) c h with ⟨j, ex, hj1, hj2, hj3⟩
      refine ⟨j, ex, by omega, ?_, hj3⟩
      simp only [List.length_cons]
      omega

theorem spliceCandidate_other_strand (strand : String) (cd fs nE : Int)
    (i : Nat) (coord : Int) (ex : Int × Int)
    (hp : strand ≠ "+") (hm : strand ≠ "-") :
    spliceCandidate strand cd fs nE i coord ex = none := by
  simp [spliceCandidate, hp, hm]

theorem candList_other_strand (strand : String) (cd fs nE coord : Int)
    (hp : strand ≠ "+") (hm : strand ≠ "-") :
    ∀ (l : List (Int × Int)) (i : Nat), candList strand cd fs nE coord i l = [] := by
  intro l
  induction l with
  | nil => intro i; rfl
  | cons e l ih =>
    intro i
    rw [candList, spliceCandidate_other_strand strand cd fs nE i coord e hp hm]
    exact ih (i + 1)

theorem exists_first_split {α : Type} (P : α → Prop) :
    ∀ (l : List α), (∃ x ∈ l, P x) →
    ∃ l₁ x l₂, l = l₁ ++ x :: l₂ ∧ P x ∧ ∀ y ∈ l₁, ¬ P y := by
  intro l
  induction l with
  | nil => rintro ⟨x, hx, _⟩; cases hx
  | cons a l ih =>
    intro hex
    by_cases ha : P a
    · exact ⟨[], a, l, rfl, ha, by simp⟩
    · have hex' : ∃ x ∈ l, P x := by
        rcases hex with ⟨x, hx, hPx⟩
        rcases List.mem_cons.mp hx with rfl | hx
        · exact absurd hPx ha
        · exact ⟨x, hx, hPx⟩
      rcases ih hex' with ⟨l₁, x, l₂, heq, hPx, hno⟩
      refine ⟨a :: l₁, x, l₂, by rw [heq]; rfl, hPx, ?_⟩
      intro y hy
      rcases List.mem_cons.mp hy with rfl | hy
      · exact ha
      · exact hno y hy

end Bed

namespace Bed

theorem spliceCandidate_range (strand : String) (cd nE : Int) (j : Nat)
    (coord : Int) (ex : Int × Int) (c : Int) (hj : (j : Int) < nE)
    (h : spliceCandidate strand cd (2 * (nE - 1)) nE j coord ex = some c) :
    (cd - 2 ≤ c ∧ c < cd + 2 * (2 * (nE - 1))) ∧ (strand = "+" → cd ≤ c) := by
  by_cases hp : strand = "+"
  · subst hp
    simp only [spliceCandidate, if_true, if_neg (by decide : ¬("+" = "-")),
      if_pos (rfl : "+" = "+")] at h
    split_ifs at h with h1 h2
    · rw [Option.some.injEq] at h
      obtain ⟨h1a, h1b, h1c⟩ := h1
      refine ⟨⟨by omega, by omega⟩, fun _ => by omega⟩
    · rw [Option.some.injEq] at h
      obtain ⟨h2a, h2b, h2c⟩ := h2
      have h2n : 1 ≤ (j : Int) := by
        have : 0 < j := Nat.pos_of_ne_zero h2c
        exact_mod_cast this
      refine ⟨⟨by omega, by omega⟩, fun _ => by omega⟩
  · by_cases hm : strand = "-"
    · subst hm
      simp only [spliceCandidate, if_neg (by decide : ¬("-" = "+")),
        if_pos (rfl : "-" = "-")] at h
      split_ifs at h with h1 h2
      · rw [Option.some.injEq] at h
        obtain ⟨h1a, h1b, h1c⟩ := h1
        refine ⟨⟨by omega, by omega⟩, fun hs => absurd hs (by decide)⟩
      · rw [Option.some.injEq] at h
        obtain ⟨h2a, h2b, h2c⟩ := h2
        have h2n : 1 ≤ (j : Int) := by
          have : 0 < j := Nat.pos_of_ne_zero h2c
          exact_mod_cast this
        refine ⟨⟨by omega, by omega⟩, fun hs => absurd hs (by decide)⟩
    · rw [spliceCandidate_other_strand strand cd (2 * (nE - 1)) nE j coord ex hp hm] at h
      cases h

/-- C1: only the coding-exon-interior case of `query_position` returns
immediately: if the coordinate lies in the interior of an exon and not in the
interior of any earlier exon, the prefix-sum position of that exon is
returned, and the exons after it are irrelevant to the result; if no exon
interior contains the coordinate, the result is the last splice candidate
computed during the scan if any, else null (last candidate wins). -/
theorem C1_scan_semantics (chrom strand : String) (coord : Int) :
    (∀ (l₁ : List (Int × Int)) (ex : Int × Int) (l₂ l₂' : List (Int × Int)),
      (∀ e ∈ l₁, ¬(e.1 ≤ coord ∧ coord < e.2)) → ex.1 ≤ coord → coord < ex.2 →
      query_position ⟨chrom, l₁ ++ ex :: l₂⟩ strand chrom coord
          = some ((exon_lens l₁).sum + (coord - ex.1))
      ∧ query_position ⟨chrom, l₁ ++ ex :: l₂⟩ strand chrom coord
          = query_position ⟨chrom, l₁ ++ ex :: l₂'⟩ strand chrom coord)
    ∧ (∀ exs : List (Int × Int),
      (∀ e ∈ exs, ¬(e.1 ≤ coord ∧ coord < e.2)) →
      query_position ⟨chrom, exs⟩ strand chrom coord
          = (candList strand (cds_len exs) (five_ss_len exs)
              (exs.length : Int) coord 0 exs).getLast?) := by
  have hch : ¬ (chrom ≠ chrom) := fun hc => hc rfl
  have key : ∀ (l₁ : List (Int × Int)) (ex : Int × Int) (l₂ : List (Int × Int)),
      (∀ e ∈ l₁, ¬(e.1 ≤ coord ∧ coord < e.2)) → ex.1 ≤ coord → coord < ex.2 →
      query_position ⟨chrom, l₁ ++ ex :: l₂⟩ strand chrom coord
          = some ((exon_lens l₁).sum + (coord - ex.1)) := by
    intro l₁ ex l₂ hno h1 h2
    simp only [query_position]
    rw [if_neg hch,
      queryScan_first_interior strand _ _ _ coord _ l₁ ex l₂ 0 none hno h1 h2]
    have htake : (exon_lens (l₁ ++ ex :: l₂)).take (0 + l₁.length)
        = exon_lens l₁ := by
      simp only [Nat.zero_add, exon_lens, List.map_append]
      exact List.take_left' (by simp)
    rw [htake]
  constructor
  · intro l₁ ex l₂ l₂' hno h1 h2
    exact ⟨key l₁ ex l₂ hno h1 h2,
      (key l₁ ex l₂ hno h1 h2).trans (key l₁ ex l₂' hno h1 h2).symm⟩
  · intro exs hno
    simp only [query_position]
    rw [if_neg hch,
      queryScan_no_interior strand _ _ _ coord _ exs 0 none hno, foldl_overwrite]
    cases (candList strand (cds_len exs) (five_ss_len exs)
        (exs.length : Int) coord 0 exs).getLast? <;> rfl

theorem C1_scan_semantics_witness :
    (query_position ⟨"c", [] ++ (100, 200) :: [(300, 400)]⟩ "+" "c" 150
        = some ((exon_lens []).sum + (150 - 100))
     ∧ query_position ⟨"c", [] ++ (100, 200) :: [(300, 400)]⟩ "+" "c" 150
         = query_position ⟨"c", [] ++ (100, 200) :: []⟩ "+" "c" 150)
    ∧ query_position ⟨"c", [(100, 200), (202, 300)]⟩ "+" "c" 200
        = (candList "+" (cds_len [(100, 200), (202, 300)])
            (five_ss_len [(100, 200), (202, 300)])
            (([(100, 200), (202, 300)] : List (Int × Int)).length : Int) 200 0
            [(100, 200), (202, 300)]).getLast? :=
  ⟨(C1_scan_semantics "c" "+" 150).1 [] (100, 200) [(300, 400)] []
      (by simp) (by norm_num) (by norm_num),
   (C1_scan_semantics "c" "+" 200).2 [(100, 200), (202, 300)] (by decide)⟩

end Bed

namespace Bed

theorem elim_none_some (o : Option Int) : o.elim none some = o := by
  cases o <;> rfl

/-- C2 counterexample: on the well-formed two-exon minus-strand gene with
coding exons [100,200) and [300,400), the coordinate 299 lies in no coding
exon interior (it is in the 2-base window before exon 1), yet
`query_position` returns 199, which is below cds_len = 200 — a splice-window
query whose result lies inside the coding range [0, cds_len), contradicting
the claimed partition. -/
theorem C2_counterexample :
    query_position ⟨"chr1", [(100, 200), (300, 400)]⟩ "-" "chr1" 299 = some 199
    ∧ (∀ e ∈ ([(100, 200), (300, 400)] : List (Int × Int)),
        ¬(e.1 ≤ (299 : Int) ∧ (299 : Int) < e.2))
    ∧ List.Chain' (fun a b : Int × Int => a.2 ≤ b.1) [(100, 200), (300, 400)]
    ∧ (∀ e ∈ ([(100, 200), (300, 400)] : List (Int × Int)), e.1 < e.2)
    ∧ cds_len [(100, 200), (300, 400)] = 200
    ∧ (199 : Int) < cds_len [(100, 200), (300, 400)] := by
  refine ⟨?_, by decide, ?_, by decide, by decide, by decide⟩
  · have h : ¬ ("chr1" ≠ "chr1") := fun hc => hc rfl
    simp only [query_position]
    rw [if_neg h]
    rfl
  · simp [List.chain'_cons]

/-- C2 (amended): for a well-formed gene (sorted, non-overlapping,
positive-length coding exons) and strand "+" or "-", a query that hits a
coding-exon interior returns a value in [0, cds_len); a query that hits no
interior (a splice-window result) returns a value in
[cds_len − 2, cds_len + 2·splice_span), and on the plus strand in
[cds_len, cds_len + 2·splice_span) — the minus-strand acceptor window of the
last exon is the only escape below cds_len. -/
theorem C2_partition_range (chrom strand : String) (coord : Int)
    (exs : List (Int × Int)) (p : Int)
    (hchain : List.Chain' (fun a b : Int × Int => a.2 ≤ b.1) exs)
    (hpos : ∀ e ∈ exs, e.1 < e.2)
    (hstrand : strand = "+" ∨ strand = "-")
    (hres : query_position ⟨chrom, exs⟩ strand chrom coord = some p) :
    ((∃ e ∈ exs, e.1 ≤ coord ∧ coord < e.2) → 0 ≤ p ∧ p < cds_len exs)
    ∧ ((∀ e ∈ exs, ¬(e.1 ≤ coord ∧ coord < e.2)) →
        (cds_len exs - 2 ≤ p ∧ p < cds_len exs + 2 * five_ss_len exs)
        ∧ (strand = "+" → cds_len exs ≤ p)) := by
  have hch : ¬ (chrom ≠ chrom) := fun hc => hc rfl
  constructor
  · intro hex
    rcases exists_first_split (fun e => e.1 ≤ coord ∧ coord < e.2) exs hex with
      ⟨l₁, ex, l₂, heq, hPex, hno⟩
    subst heq
    simp only [query_position] at hres
    rw [if_neg hch,
      queryScan_first_interior strand _ _ _ coord _ l₁ ex l₂ 0 none
        hno hPex.1 hPex.2] at hres
    have htake : (exon_lens (l₁ ++ ex :: l₂)).take (0 + l₁.length)
        = exon_lens l₁ := by
      simp only [Nat.zero_add, exon_lens, List.map_append]
      exact List.take_left' (by simp)
    rw [htake, Option.some.injEq] at hres
    have hA : 0 ≤ (exon_lens l₁).sum := by
      refine List.sum_nonneg ?_
      intro x hx
      rcases List.mem_map.mp hx with ⟨e, he, rfl⟩
      have := hpos e (by simp [he])
      omega
    have hB : 0 ≤ (exon_lens l₂).sum := by
      refine List.sum_nonneg ?_
      intro x hx
      rcases List.mem_map.mp hx with ⟨e, he, rfl⟩
      have := hpos e (by simp [he])
      omega
    have hcds : cds_len (l₁ ++ ex :: l₂)
        = (exon_lens l₁).sum + ((ex.2 - ex.1) + (exon_lens l₂).sum) := by
      simp [cds_len, exon_lens, List.map_append, List.sum_append]
    obtain ⟨hc1, hc2⟩ := hPex
    constructor
    · omega
    · omega
  · intro hno
    simp only [query_position] at hres
    rw [if_neg hch,
      queryScan_no_interior strand _ _ _ coord _ exs 0 none hno,
      foldl_overwrite] at hres
    rw [elim_none_some] at hres
    have hlast : (candList strand (cds_len exs) (five_ss_len exs)
        (exs.length : Int) coord 0 exs).getLast? = some p := hres
    have hmem : p ∈ candList strand (cds_len exs) (five_ss_len exs)
        (exs.length : Int) coord 0 exs :=
      List.mem_of_mem_getLast? (by rw [hlast]; rfl)
    rcases candList_mem strand _ _ _ coord exs 0 p hmem with ⟨j, ex, _, hjlt, hsc⟩
    have hjn : (j : Int) < (exs.length : Int) := by
      have : j < exs.length := by omega
      exact_mod_cast this
    have hfs : five_ss_len exs = 2 * ((exs.length : Int) - 1) := rfl
    rw [hfs] at hsc
    have hr := spliceCandidate_range strand (cds_len exs) (exs.length : Int)
      j coord ex p hjn hsc
    rw [hfs]
    exact ⟨⟨hr.1.1, hr.1.2⟩, hr.2⟩

theorem C2_partition_range_witness :
    ((∃ e ∈ ([(100, 200), (300, 400)] : List (Int × Int)),
        e.1 ≤ (200 : Int) ∧ (200 : Int) < e.2) →
      0 ≤ (200 : Int) ∧ (200 : Int) < cds_len [(100, 200), (300, 400)])
    ∧ ((∀ e ∈ ([(100, 200), (300, 400)] : List (Int × Int)),
        ¬(e.1 ≤ (200 : Int) ∧ (200 : Int) < e.2)) →
        (cds_len [(100, 200), (300, 400)] - 2 ≤ (200 : Int)
          ∧ (200 : Int) < cds_len [(100, 200), (300, 400)]
              + 2 * five_ss_len [(100, 200), (300, 400)])
        ∧ ("+" = "+" → cds_len [(100, 200), (300, 400)] ≤ (200 : Int))) :=
  C2_partition_range "chr1" "+" 200 [(100, 200), (300, 400)] 200
    (by simp [List.chain'_cons]) (by decide) (Or.inl rfl)
    (by have h : ¬ ("chr1" ≠ "chr1") := fun hc => hc rfl
        simp only [query_position]; rw [if_neg h]; rfl)

/-- C9: the strand argument influences only splice-window results.  If the
coordinate lies in some coding-exon interior, the result of `query_position`
is the same for any two strand arguments; and for a strand other than "+"
and "-", a query whose coordinate is in no coding-exon interior returns
null, because no splice candidate is ever computed. -/
theorem C9_strand_noninterference (chrom s₁ s₂ : String) (coord : Int)
    (exs : List (Int × Int)) :
    ((∃ e ∈ exs, e.1 ≤ coord ∧ coord < e.2) →
      query_position ⟨chrom, exs⟩ s₁ chrom coord
        = query_position ⟨chrom, exs⟩ s₂ chrom coord)
    ∧ (s₁ ≠ "+" → s₁ ≠ "-" → (∀ e ∈ exs, ¬(e.1 ≤ coord ∧ coord < e.2)) →
      query_position ⟨chrom, exs⟩ s₁ chrom coord = none) := by
  have hch : ¬ (chrom ≠ chrom) := fun hc => hc rfl
  constructor
  · intro hex
    rcases exists_first_split (fun e => e.1 ≤ coord ∧ coord < e.2) exs hex with
      ⟨l₁, ex, l₂, heq, hPex, hno⟩
    subst heq
    simp only [query_position]
    rw [if_neg hch, if_neg hch,
      queryScan_first_interior s₁ _ _ _ coord _ l₁ ex l₂ 0 none
        hno hPex.1 hPex.2,
      queryScan_first_interior s₂ _ _ _ coord _ l₁ ex l₂ 0 none
        hno hPex.1 hPex.2]
  · intro hp hm hno
    simp only [query_position]
    rw [if_neg hch,
      queryScan_no_interior s₁ _ _ _ coord _ exs 0 none hno,
      candList_other_strand s₁ _ _ _ coord hp hm exs 0]
    rfl

theorem C9_strand_noninterference_witness :
    query_position ⟨"c", [(100, 200)]⟩ "+" "c" 150
      = query_position ⟨"c", [(100, 200)]⟩ "-" "c" 150
    ∧ query_position ⟨"c", [(100, 200), (300, 400)]⟩ "x" "c" 200 = none :=
  ⟨(C9_strand_noninterference "c" "+" "-" 150 [(100, 200)]).1 (by decide),
   (C9_strand_noninterference "c" "x" "+" 200 [(100, 200), (300, 400)]).2
     (by decide) (by decide) (by decide)⟩

end Bed

namespace Bed

/-- C3 counterexample: with coding region [10,20) (length ≥ 3), the exon
[20,30) starts exactly at the coding end and the exon [5,10) ends exactly at
the coding start; the claim says both are dropped, but the filter emits a
zero-length interval for each instead of dropping them. -/
theorem C3_counterexample :
    filter_utr 10 20 [(20, 30)] = [(20, 20)]
    ∧ filter_utr 10 20 [(5, 10)] = [(10, 10)] := by
  constructor <;> rfl

/-- C3 (amended): for a valid coding region, an exon is dropped by the
filter iff both endpoints are strictly above codingEnd or both strictly
below codingStart; an exon touching the coding start from the left yields
the zero-length interval [codingStart, codingStart) and an exon touching
the coding end from the right yields [codingEnd, codingEnd); the filter is
the per-exon classification mapped over the list. -/
theorem C3_utr_drop_conditions (cs ce s e : Int) (h3 : 3 ≤ ce - cs) :
    (classifyExon cs ce (s, e) = none ↔ ((ce < s ∧ ce < e) ∨ (s < cs ∧ e < cs)))
    ∧ (s < cs → e = cs → classifyExon cs ce (s, e) = some (cs, cs))
    ∧ (s = ce → ce < e → classifyExon cs ce (s, e) = some (ce, ce))
    ∧ ∀ l : List (Int × Int),
        filter_utr cs ce l = l.filterMap (classifyExon cs ce) := by
  refine ⟨⟨?_, ?_⟩, ?_, ?_, ?_⟩
  · intro h
    unfold classifyExon at h
    split_ifs at h with h1 h2 h3' h4 h5 h6
    · exact Or.inl (by omega)
    · exact Or.inr (by omega)
    · omega
  · intro h
    unfold classifyExon
    split_ifs <;> first | rfl | (exfalso; omega)
  · intro hs he
    subst he
    unfold classifyExon
    split_ifs <;> first | rfl | (exfalso; omega)
  · intro hs he
    subst hs
    unfold classifyExon
    split_ifs <;> first | rfl | (exfalso; omega)
  · intro l
    unfold filter_utr
    rw [if_neg (by omega)]

theorem C3_utr_drop_conditions_witness :
    classifyExon 10 20 (25, 30) = none
    ∧ classifyExon 10 20 (5, 10) = some (10, 10)
    ∧ classifyExon 10 20 (20, 30) = some (20, 20) :=
  ⟨(C3_utr_drop_conditions 10 20 25 30 (by decide)).1.mpr (Or.inl (by decide)),
   (C3_utr_drop_conditions 10 20 5 10 (by decide)).2.1 (by decide) rfl,
   (C3_utr_drop_conditions 10 20 20 30 (by decide)).2.2.1 rfl (by decide)⟩

end Bed

namespace Bed

theorem intList?_isSome (ts : List String) :
    (intList? ts).isSome = true ↔ ∀ t ∈ ts, (pyInt? t).isSome = true := by
  induction ts with
  | nil => simp [intList?]
  | cons t ts ih =>
    cases hp : pyInt? t with
    | none =>
      have hnone : intList? (t :: ts) = none := by
        unfold intList?
        rw [hp]
      simp [hnone, List.forall_mem_cons, hp]
    | some v =>
      cases hi : intList? ts with
      | none =>
        have hnone : intList? (t :: ts) = none := by
          unfold intList?
          rw [hp, hi]
        have hts : ¬ ∀ x ∈ ts, (pyInt? x).isSome = true := by
          rw [← ih]
          simp [hi]
        simp [hnone, List.forall_mem_cons, hp, hts]
      | some vs =>
        have hsome : intList? (t :: ts) = some (v :: vs) := by
          unfold intList?
          rw [hp, hi]
        have hts : ∀ x ∈ ts, (pyInt? x).isSome = true := by
          rw [← ih]
          simp [hi]
        simp only [hsome, List.forall_mem_cons, hp, Option.isSome_some, true_iff]
        exact ⟨trivial, hts⟩

theorem intList?_length (ts : List String) :
    ∀ vs : List Int, intList? ts = some vs → vs.length = ts.length := by
  induction ts with
  | nil =>
    intro vs h
    unfold intList? at h
    rw [Option.some.injEq] at h
    rw [← h]
    rfl
  | cons t ts ih =>
    intro vs h
    unfold intList? at h
    cases hp : pyInt? t with
    | none => rw [hp] at h; cases h
    | some v =>
      rw [hp] at h
      cases hi : intList? ts with
      | none => rw [hi] at h; cases h
      | some ws =>
        rw [hi, Option.some.injEq] at h
        rw [← h]
        simp [ih ws hi]

theorem codingExons_isSome (t : BedTuple) :
    (codingExons t).isSome = true
    ↔ ((pyInt? t.chromStart).isSome = true
        ∧ (∀ x ∈ splitCommaField t.blockStarts, (pyInt? x).isSome = true)
        ∧ (∀ x ∈ splitCommaField t.blockSizes, (pyInt? x).isSome = true)
        ∧ (splitCommaField t.blockStarts).length
            ≤ (splitCommaField t.blockSizes).length
        ∧ (pyInt? t.thickStart).isSome = true
        ∧ (pyInt? t.thickEnd).isSome = true) := by
  unfold codingExons rawExons
  cases hc : pyInt? t.chromStart with
  | none => simp [hc]
  | some v =>
    cases hs : intList? (splitCommaField t.blockStarts) with
    | none =>
      have hst : ¬ ∀ x ∈ splitCommaField t.blockStarts, (pyInt? x).isSome = true := by
        rw [← intList?_isSome]
        simp [hs]
      simp [hc, hs, hst]
    | some starts =>
      have hst : ∀ x ∈ splitCommaField t.blockStarts, (pyInt? x).isSome = true := by
        rw [← intList?_isSome]
        simp [hs]
      cases hz : intList? (splitCommaField t.blockSizes) with
      | none =>
        have hsz : ¬ ∀ x ∈ splitCommaField t.blockSizes, (pyInt? x).isSome = true := by
          rw [← intList?_isSome]
          simp [hz]
        simp [hc, hs, hz, hsz]
      | some sizes =>
        have hsz : ∀ x ∈ splitCommaField t.blockSizes, (pyInt? x).isSome = true := by
          rw [← intList?_isSome]
          simp [hz]
        have hl1 : starts.length = (splitCommaField t.blockStarts).length :=
          intList?_length _ starts hs
        have hl2 : sizes.length = (splitCommaField t.blockSizes).length :=
          intList?_length _ sizes hz
        by_cases hlt : sizes.length < starts.length
        · have hle : ¬ (splitCommaField t.blockStarts).length
              ≤ (splitCommaField t.blockSizes).length := by omega
          simp [hc, hs, hz, hlt, hle]
        · have hle : (splitCommaField t.blockStarts).length
              ≤ (splitCommaField t.blockSizes).length := by omega
          cases hts : pyInt? t.thickStart with
          | none => simp [hc, hs, hz, hlt, hts]
          | some cs =>
            cases hte : pyInt? t.thickEnd with
            | none => simp [hc, hs, hz, hlt, hts, hte]
            | some ce =>
              simp only [hc, hs, hz, hlt, hts, hte, if_neg hlt, Option.isSome_some,
                true_iff, true_and]
              simp [hlt, hle, hst, hsz]
              exact ⟨hst, hsz⟩

end Bed

namespace Bed

theorem mkBedLineList_isSome (l : List String) :
    (mkBedLineList l).isSome = true ↔ goodBed l := by
  by_cases hlen : l.length < 12
  · have ht : mkBedTuple l = none := by simp [mkBedTuple, hlen]
    simp only [mkBedLineList, ht]
    constructor
    · intro h; simp at h
    · rintro ⟨h12, -⟩; exact absurd h12 (by omega)
  · have ht : mkBedTuple l = some ⟨l.getD 0 "", l.getD 1 "", l.getD 2 "",
        l.getD 3 "", l.getD 4 "", l.getD 5 "", l.getD 6 "", l.getD 7 "",
        l.getD 8 "", l.getD 9 "", l.getD 10 "", l.getD 11 ""⟩ := by
      simp [mkBedTuple, hlen]
    simp only [mkBedLineList, ht]
    cases hco : codingExons ⟨l.getD 0 "", l.getD 1 "", l.getD 2 "",
        l.getD 3 "", l.getD 4 "", l.getD 5 "", l.getD 6 "", l.getD 7 "",
        l.getD 8 "", l.getD 9 "", l.getD 10 "", l.getD 11 ""⟩ with
    | none =>
      have hiff := codingExons_isSome ⟨l.getD 0 "", l.getD 1 "", l.getD 2 "",
        l.getD 3 "", l.getD 4 "", l.getD 5 "", l.getD 6 "", l.getD 7 "",
        l.getD 8 "", l.getD 9 "", l.getD 10 "", l.getD 11 ""⟩
      rw [hco] at hiff
      dsimp only at hiff
      constructor
      · intro h; simp at h
      · rintro ⟨-, hrest⟩
        have hfalse := hiff.mpr hrest
        simp at hfalse
    | some ex =>
      have hiff := codingExons_isSome ⟨l.getD 0 "", l.getD 1 "", l.getD 2 "",
        l.getD 3 "", l.getD 4 "", l.getD 5 "", l.getD 6 "", l.getD 7 "",
        l.getD 8 "", l.getD 9 "", l.getD 10 "", l.getD 11 ""⟩
      rw [hco] at hiff
      dsimp only at hiff
      constructor
      · intro _; exact ⟨by omega, hiff.mp rfl⟩
      · intro _; rfl

/-- C5 counterexample: a 13-field record (field count ≠ 12) is accepted —
`zip` truncation silently drops the extra field — and a 12-field record all
of whose required numeric fields are integer literals is rejected, because
`blockStarts` ("0,10") has more entries than `blockSizes` ("5") and the
exon construction fails with an `IndexError`.  Both directions of the
claimed iff fail. -/
theorem C5_counterexample :
    (mkBedLine (.fields ["chr1", "0", "100", "g", "0", "+", "0", "100",
        "0", "1", "100,", "0,", "EXTRA"])).isSome = true
    ∧ (mkBedLine (.fields ["chr1", "0", "100", "g", "0", "+", "0", "100",
        "0", "2", "5", "0,10"])).isSome = false := by
  constructor <;> rfl

/-- C5 (amended): construction succeeds iff the record has **at least** 12
fields (extra fields are silently ignored), the required numeric fields
(chromStart, thickStart, thickEnd, every blockSizes/blockStarts entry) are
integer literals, and blockStarts has no more entries than blockSizes; a
raw string is first split on tabs, and an input that is neither a string
nor a field list is always rejected. -/
theorem C5_parse_success_iff (l : List String) (s : String) :
    ((mkBedLine (.fields l)).isSome = true ↔ goodBed l)
    ∧ ((mkBedLine (.str s)).isSome = true ↔ goodBed (splitTabField s))
    ∧ mkBedLine .other = none :=
  ⟨mkBedLineList_isSome l, mkBedLineList_isSome (splitTabField s), rfl⟩

end Bed

namespace Bed

theorem codingExons_fields (t t' : BedTuple)
    (h1 : t.chromStart = t'.chromStart) (h2 : t.thickStart = t'.thickStart)
    (h3 : t.thickEnd = t'.thickEnd) (h4 : t.blockSizes = t'.blockSizes)
    (h5 : t.blockStarts = t'.blockStarts) :
    codingExons t = codingExons t' := by
  unfold codingExons rawExons
  rw [h1, h2, h3, h4, h5]

theorem rawExons_length (t : BedTuple) (ex : List (Int × Int))
    (h : rawExons t = some ex) :
    ex.length = (splitCommaField t.blockStarts).length := by
  unfold rawExons at h
  cases hc : pyInt? t.chromStart with
  | none => rw [hc] at h; cases h
  | some v =>
    rw [hc] at h
    cases hs : intList? (splitCommaField t.blockStarts) with
    | none =>
      cases hz : intList? (splitCommaField t.blockSizes) with
      | none => rw [hs, hz] at h; cases h
      | some sizes => rw [hs, hz] at h; cases h
    | some starts =>
      cases hz : intList? (splitCommaField t.blockSizes) with
      | none => rw [hs, hz] at h; cases h
      | some sizes =>
        rw [hs, hz] at h
        dsimp only at h
        by_cases hlt : sizes.length < starts.length
        · rw [if_pos hlt] at h; cases h
        · rw [if_neg hlt, Option.some.injEq] at h
          rw [← h, List.length_zipWith]
          have hl1 := intList?_length _ starts hs
          have hl2 := intList?_length _ sizes hz
          omega

/-- C10: the `blockCount` field is never read after the record is stored:
replacing it by any value changes neither construction success, nor the
derived coding exon list and chromosome, nor any `query_position` answer;
and the raw exon count is exactly the number of `blockStarts` entries. -/
theorem C10_blockCount_unused (l : List String) (c₁ c₂ : String) :
    ((mkBedLineList (l.set 9 c₁)).isSome = (mkBedLineList (l.set 9 c₂)).isSome)
    ∧ (∀ b₁ b₂, mkBedLineList (l.set 9 c₁) = some b₁ →
        mkBedLineList (l.set 9 c₂) = some b₂ →
        b₁.exons = b₂.exons
        ∧ b₁.bed_tuple.chrom = b₂.bed_tuple.chrom
        ∧ ∀ (strand chr : String) (coord : Int),
            query_position ⟨b₁.bed_tuple.chrom, b₁.exons⟩ strand chr coord
              = query_position ⟨b₂.bed_tuple.chrom, b₂.exons⟩ strand chr coord)
    ∧ (∀ (t : BedTuple) (ex : List (Int × Int)), rawExons t = some ex →
        ex.length = (splitCommaField t.blockStarts).length) := by
  have hget : ∀ (c : String) (i : Nat), i ≠ 9 →
      (l.set 9 c).getD i "" = l.getD i "" := by
    intro c i hi
    simp [List.getD_eq_getElem?_getD, List.getElem?_set_ne (Ne.symm hi)]
  by_cases hlen : l.length < 12
  · have h1 : mkBedTuple (l.set 9 c₁) = none := by
      simp [mkBedTuple, List.length_set, hlen]
    have h2 : mkBedTuple (l.set 9 c₂) = none := by
      simp [mkBedTuple, List.length_set, hlen]
    refine ⟨?_, ?_, fun t ex h => rawExons_length t ex h⟩
    · simp [mkBedLineList, h1, h2]
    · intro b₁ b₂ hb₁ hb₂
      simp [mkBedLineList, h1] at hb₁
  · have hT : ∀ c : String, mkBedTuple (l.set 9 c)
        = some ⟨l.getD 0 "", l.getD 1 "", l.getD 2 "", l.getD 3 "",
          l.getD 4 "", l.getD 5 "", l.getD 6 "", l.getD 7 "", l.getD 8 "",
          (l.set 9 c).getD 9 "", l.getD 10 "", l.getD 11 ""⟩ := by
      intro c
      have hl : ¬ (l.set 9 c).length < 12 := by rw [List.length_set]; omega
      simp only [mkBedTuple, if_neg hl]
      rw [hget c 0 (by omega), hget c 1 (by omega), hget c 2 (by omega),
        hget c 3 (by omega), hget c 4 (by omega), hget c 5 (by omega),
        hget c 6 (by omega), hget c 7 (by omega), hget c 8 (by omega),
        hget c 10 (by omega), hget c 11 (by omega)]
    have hcod : codingExons (⟨l.getD 0 "", l.getD 1 "", l.getD 2 "",
          l.getD 3 "", l.getD 4 "", l.getD 5 "", l.getD 6 "", l.getD 7 "",
          l.getD 8 "", (l.set 9 c₁).getD 9 "", l.getD 10 "",
          l.getD 11 ""⟩ : BedTuple)
        = codingExons ⟨l.getD 0 "", l.getD 1 "", l.getD 2 "", l.getD 3 "",
          l.getD 4 "", l.getD 5 "", l.getD 6 "", l.getD 7 "", l.getD 8 "",
          (l.set 9 c₂).getD 9 "", l.getD 10 "", l.getD 11 ""⟩ :=
      codingExons_fields _ _ rfl rfl rfl rfl rfl
    refine ⟨?_, ?_, fun t ex h => rawExons_length t ex h⟩
    · simp only [mkBedLineList, hT c₁, hT c₂, hcod]
      cases hco : codingExons (⟨l.getD 0 "", l.getD 1 "", l.getD 2 "",
          l.getD 3 "", l.getD 4 "", l.getD 5 "", l.getD 6 "", l.getD 7 "",
          l.getD 8 "", (l.set 9 c₂).getD 9 "", l.getD 10 "",
          l.getD 11 ""⟩ : BedTuple) with
      | none => rfl
      | some ex => rfl
    · intro b₁ b₂ hb₁ hb₂
      simp only [mkBedLineList, hT c₁, hT c₂, hcod] at hb₁ hb₂
      cases hco : codingExons (⟨l.getD 0 "", l.getD 1 "", l.getD 2 "",
          l.getD 3 "", l.getD 4 "", l.getD 5 "", l.getD 6 "", l.getD 7 "",
          l.getD 8 "", (l.set 9 c₂).getD 9 "", l.getD 10 "",
          l.getD 11 ""⟩ : BedTuple) with
      | none => rw [hco] at hb₁; cases hb₁
      | some ex =>
        rw [hco, Option.some.injEq] at hb₁ hb₂
        subst hb₁
        subst hb₂
        exact ⟨rfl, rfl, fun strand chr coord => rfl⟩

theorem C10_blockCount_unused_witness :
    ((mkBedLineList ((["chr1", "0", "100", "g", "0", "+", "0", "100", "0", "7",
        "100,", "0,"] : List String).set 9 "99")).isSome
      = (mkBedLineList ((["chr1", "0", "100", "g", "0", "+", "0", "100", "0",
        "7", "100,", "0,"] : List String).set 9 "1")).isSome)
    ∧ ([((0 : Int), (100 : Int))] : List (Int × Int))
        = [((0 : Int), (100 : Int))]
    ∧ ([((0 : Int), (100 : Int))] : List (Int × Int)).length
        = (splitCommaField "0,").length :=
  ⟨(C10_blockCount_unused
      ["chr1", "0", "100", "g", "0", "+", "0", "100", "0", "7", "100,", "0,"]
      "99" "1").1,
   ((C10_blockCount_unused
      ["chr1", "0", "100", "g", "0", "+", "0", "100", "0", "7", "100,", "0,"]
      "99" "1").2.1
      ⟨⟨"chr1", "0", "100", "g", "0", "+", "0", "100", "0", "99", "100,", "0,"⟩,
        [(0, 100)]⟩
      ⟨⟨"chr1", "0", "100", "g", "0", "+", "0", "100", "0", "1", "100,", "0,"⟩,
        [(0, 100)]⟩ rfl rfl).1,
   (C10_blockCount_unused
      ["chr1", "0", "100", "g", "0", "+", "0", "100", "0", "7", "100,", "0,"]
      "99" "1").2.2
      ⟨"chr1", "0", "100", "g", "0", "+", "0", "100", "0", "7", "100,", "0,"⟩
      [(0, 100)] rfl⟩

end Bed
